import Mathlib

/-!
# Bomberman — Tile Grid & Bomb/Explosion Propagation Engine, verified model

A shallow embedding of the grid-based Bomberman game's core. The explosion
engine (tile grid, bomb registry, propagation walk, chain cascade) is
modelled from spec.md §3–§4.3 because its implementation files are not part
of the staged sources; the player movement resolution, the tile-alignment
check, and the lose/restart rules are translated directly from the staged
TypeScript sources (Player variants, PlayerControlsManager.ts,
GameRulesManager.ts).
-/

namespace Bomberman

/- ## Tile grid -/

/-- Modelled from the spec: `kind ∈ {Empty, IndestructibleWall,
DestructibleWall, Door}` (spec.md §3, Cell). -/
inductive CellKind where
  | Empty
  | IndestructibleWall
  | DestructibleWall
  | Door
deriving DecidableEq, Repr

/-- A tile grid is its cell-kind map over integer tile coordinates
`(col, row)`; the grid source files are not staged, so the map is the
abstract state the spec's Tile Grid owns. -/
abbrev TileGrid := Int × Int → CellKind

/-- Modelled from the spec: `destroy(col, row)` — "valid only on
`DestructibleWall`; transitions it to `Empty`; side effect: emits a
'wall destroyed' notification" (spec.md §4.1). Returns the updated grid
together with the list of wall-destroyed notifications emitted. -/
def destroy (g : TileGrid) (c : Int × Int) : TileGrid × List (Int × Int) :=
  if g c = CellKind.DestructibleWall then
    (fun p => if p = c then CellKind.Empty else g p, [c])
  else
    (g, [])

/- ## Directions and the explosion walk -/

/-- The four cardinal directions of spec.md §4.3 step 2. -/
inductive Dir where
  | up
  | down
  | left
  | right
deriving DecidableEq, Repr

/-- One tile step in a direction (integer `(col, row)` coordinates,
row grows downward). -/
def Dir.step : Dir → Int × Int → Int × Int
  | Dir.up, (c, r) => (c, r - 1)
  | Dir.down, (c, r) => (c, r + 1)
  | Dir.left, (c, r) => (c - 1, r)
  | Dir.right, (c, r) => (c + 1, r)

/-- Iterated tile steps in a direction: the ray of cells a walk visits. -/
def Dir.stepN (d : Dir) (p : Int × Int) : Nat → Int × Int
  | 0 => p
  | n + 1 => d.step (d.stepN p n)

/-- Modelled from the spec: the per-direction outward walk of the Explosion
Propagation Engine (spec.md §4.3 step 2) — walk outward tile-by-tile up to
`blastRange` tiles; an `IndestructibleWall` stops the direction with no cell
emitted; a `DestructibleWall` emits a cell and stops; a cell holding another
armed bomb emits a cell, requests a chain detonation and stops; an
`Empty`/`Door` cell emits a cell and continues. Returns the emitted cells
(in walk order) and the ids of chain-detonation requests. -/
def walkFrom (kindAt : TileGrid) (armedAt : Int × Int → Option Nat)
    (d : Dir) : Int × Int → Nat → List (Int × Int) × List Nat
  | _, 0 => ([], [])
  | pos, n + 1 =>
    let next := d.step pos
    if kindAt next = CellKind.IndestructibleWall then ([], [])
    else if kindAt next = CellKind.DestructibleWall then ([next], [])
    else
      match armedAt next with
      | some bid => ([next], [bid])
      | none =>
        let rest := walkFrom kindAt armedAt d next n
        (next :: rest.1, rest.2)

/- ## Bomb registry and the detonation cascade -/

/-- Modelled from the spec: `state ∈ {Armed, Detonating, Spent}`
(spec.md §3, Bomb). -/
inductive BombState where
  | Armed
  | Detonating
  | Spent
deriving DecidableEq, Repr

/-- Modelled from the spec: a placed explosive (spec.md §3, Bomb) —
`id`, `originCell`, `ownerId`, `blastRange`, `fuseTicksRemaining`
(`none` pending a remote trigger), `state`. -/
structure Bomb where
  id : Nat
  origin : Int × Int
  ownerId : Nat
  blastRange : Nat
  fuse : Option Nat
  state : BombState
deriving DecidableEq, Repr

/-- The id of the first armed bomb occupying a cell, if any — the occupancy
view the explosion walk consults ("if the next cell contains another armed
bomb", spec.md §4.3). -/
def armedBombAt (bombs : List Bomb) (p : Int × Int) : Option Nat :=
  (bombs.find? fun b => decide (b.state = BombState.Armed ∧ b.origin = p)).map Bomb.id

/-- Modelled from the spec: the full detonation of one bomb (spec.md §4.3
steps 1–2) — the centre cell plus the four independent directional walks;
returns all emitted explosion cells and the collected chain-detonation
requests. -/
def explode (kindAt : TileGrid) (bombs : List Bomb) (b : Bomb) :
    List (Int × Int) × List Nat :=
  let runs := [Dir.up, Dir.down, Dir.left, Dir.right].map fun d =>
    walkFrom kindAt (armedBombAt bombs) d b.origin b.blastRange
  (b.origin :: (runs.map Prod.fst).flatten, (runs.map Prod.snd).flatten)

/-- Modelled from the spec: `onChainDetonation(bombId)` — the bomb is forced
to `Detonating`; "a bomb already `Detonating` or `Spent` is ignored (no
double-detonation)" (spec.md §4.2). -/
def onChainDetonation (bombs : List Bomb) (bid : Nat) : List Bomb :=
  bombs.map fun b =>
    if b.id = bid ∧ b.state = BombState.Armed then
      { b with state := BombState.Detonating }
    else b

/-- Modelled from the spec: step 3 of §4.3 — mark the origin bomb `Spent`. -/
def markSpent (bombs : List Bomb) (bid : Nat) : List Bomb :=
  bombs.map fun b =>
    if b.id = bid then { b with state := BombState.Spent } else b

/-- The first bomb currently in the `Detonating` state, if any. -/
def findDetonating (bombs : List Bomb) : Option Bomb :=
  bombs.find? fun b => decide (b.state = BombState.Detonating)

/-- Modelled from the spec: processing of one `Detonating` bomb (spec.md
§4.3) — compute its explosion, invoke `onChainDetonation` for every chain
request the walks emitted, then mark the bomb `Spent`. -/
def processOne (kindAt : TileGrid) (bombs : List Bomb) : List Bomb :=
  match findDetonating bombs with
  | none => bombs
  | some b =>
    markSpent ((explode kindAt bombs b).2.foldl onChainDetonation bombs) b.id

/-- Whether any bomb is mid-detonation. -/
def hasDetonating (bombs : List Bomb) : Bool :=
  bombs.any fun b => decide (b.state = BombState.Detonating)

/-- Modelled from the spec: the same-tick chain-reaction resolution —
"All bomb-fuse decrementing, chain-detonation resolution, and hazard-expiry
happen synchronously within one `tick` call" (spec.md §5); detonating bombs
are processed until none remains, with explicit fuel bounding the loop. -/
def resolveCascade (kindAt : TileGrid) : Nat → List Bomb → List Bomb
  | 0, bombs => bombs
  | n + 1, bombs =>
    if hasDetonating bombs then resolveCascade kindAt n (processOne kindAt bombs)
    else bombs

/-- Bombs still holding an owner slot: everything not yet `Spent`
(a bomb frees its owner's slot only on `Detonating→Spent`, spec.md §3). -/
def countNonSpent (bombs : List Bomb) : Nat :=
  bombs.countP fun b => decide (b.state ≠ BombState.Spent)

/-- Forward progress order on bomb states: `Armed → Detonating → Spent`. -/
def stateRank : BombState → Nat
  | BombState.Armed => 0
  | BombState.Detonating => 1
  | BombState.Spent => 2

/-- Pointwise effect of one chain-detonation request. -/
def chainMark (chains : List Nat) (b : Bomb) : Bomb :=
  if b.state = BombState.Armed ∧ b.id ∈ chains then
    { b with state := BombState.Detonating }
  else b

/-- Pointwise effect of marking the processed bomb spent. -/
def spentMark (bid : Nat) (b : Bomb) : Bomb :=
  if b.id = bid then { b with state := BombState.Spent } else b

/- ## Bomb placement and remote detonation -/

/-- Modelled from the spec: the outcome of `placeBomb` — "`BombId |
Rejected`; placement rejection is a normal, reported outcome" (spec.md
§4.2). -/
inductive PlaceResult where
  | Placed (bombId : Nat)
  | Rejected
deriving DecidableEq, Repr

/-- The bomb registry: active bombs in insertion order plus the id counter
for the next placement. -/
structure Registry where
  bombs : List Bomb
  nextId : Nat
deriving DecidableEq, Repr

/-- Bombs of an owner that still hold one of the owner's concurrent-bomb
slots (everything not yet `Spent`; a slot is freed on `Detonating→Spent`,
spec.md §3). -/
def ownerActiveCount (bombs : List Bomb) (owner : Nat) : Nat :=
  bombs.countP fun b => decide (b.ownerId = owner ∧ b.state ≠ BombState.Spent)

/-- Simultaneously armed bombs of one owner — the quantity bounded by the
owner's configured maximum (spec.md §8). -/
def ownerArmedCount (bombs : List Bomb) (owner : Nat) : Nat :=
  bombs.countP fun b => decide (b.ownerId = owner ∧ b.state = BombState.Armed)

/-- Whether an un-spent bomb occupies the cell. -/
def cellHasBomb (bombs : List Bomb) (c : Int × Int) : Bool :=
  bombs.any fun b => decide (b.origin = c ∧ b.state ≠ BombState.Spent)

/-- Modelled from the spec: `placeBomb(col, row, ownerId, blastRange,
fuseDuration)` — "rejected if the owner's concurrent-bomb count is at its
current max, or the cell is occupied by a wall or another bomb. On success,
inserts an `Armed` bomb" (spec.md §4.2). `ownerMax` is the owner's
configured maximum of concurrent bombs (power-up state consumed at
placement time). -/
def placeBomb (kindAt : TileGrid) (ownerMax : Nat → Nat) (reg : Registry)
    (c : Int × Int) (owner blastRange : Nat) (fuse : Option Nat) :
    PlaceResult × Registry :=
  if ownerMax owner ≤ ownerActiveCount reg.bombs owner then
    (PlaceResult.Rejected, reg)
  else if kindAt c = CellKind.IndestructibleWall ∨
      kindAt c = CellKind.DestructibleWall then
    (PlaceResult.Rejected, reg)
  else if cellHasBomb reg.bombs c then
    (PlaceResult.Rejected, reg)
  else
    (PlaceResult.Placed reg.nextId,
      { bombs := reg.bombs ++
          [{ id := reg.nextId, origin := c, ownerId := owner,
             blastRange := blastRange, fuse := fuse,
             state := BombState.Armed }],
        nextId := reg.nextId + 1 })

/-- One placement request of a call sequence. -/
structure PlaceReq where
  cell : Int × Int
  owner : Nat
  blastRange : Nat
  fuse : Option Nat
deriving DecidableEq, Repr

/-- The registry left by one placement request (the result is dropped). -/
def placeStep (kindAt : TileGrid) (ownerMax : Nat → Nat) (reg : Registry)
    (req : PlaceReq) : Registry :=
  (placeBomb kindAt ownerMax reg req.cell req.owner req.blastRange req.fuse).2

/-- Modelled from the spec: `detonateNext(ownerId)` — "selects the oldest
still-armed bomb belonging to that owner (FIFO) and forces it into
`Detonating`. No-op if the owner has no armed bombs" (spec.md §4.2). The
list is kept in insertion order, so the first armed match is the oldest. -/
def detonateNext (owner : Nat) : List Bomb → Option Nat × List Bomb
  | [] => (none, [])
  | b :: bs =>
    if b.ownerId = owner ∧ b.state = BombState.Armed then
      (some b.id, { b with state := BombState.Detonating } :: bs)
    else
      let rest := detonateNext owner bs
      (rest.1, b :: rest.2)

/- ## Player tile alignment (src/unnamed/part_000:335–349, identical in
src/unnamed/part_001:424–438) -/

/- ## Player tile alignment (src/unnamed/part_000:335-349, identical in
src/unnamed/part_001:424-438) -/

/-- A Phaser arcade physics body, reduced to the centre coordinates the
staged code reads (`body.center.x`, `body.center.y`); numbers are modelled
as rationals. -/
structure ArcadeBody where
  centerX : ℚ
  centerY : ℚ
deriving DecidableEq

/-- The method `Player.validateTileOverlap` — "if (tile.body && this.body)": round the
player's body centre, floor the tile's body centre, and compare the
per-axis absolute deltas against the 10px tolerance band; `false` when
either body is absent. JS `Math.round` is `⌊x + 1/2⌋`, which is Lean's
`round` on `ℚ`. -/
def validateTileOverlap (playerBody tileBody : Option ArcadeBody) : Bool :=
  match tileBody, playerBody with
  | some tb, some pb =>
    let playerCenterX := round pb.centerX
    let playerCenterY := round pb.centerY
    let tileCenterX := ⌊tb.centerX⌋
    let tileCenterY := ⌊tb.centerY⌋
    let deltaX := |playerCenterX - tileCenterX|
    let deltaY := |playerCenterY - tileCenterY|
    decide (deltaX ≤ 10 ∧ deltaY ≤ 10)
  | _, _ => false

/- ## Game rules: lose() and the delayed restart/game-over transition
(src/src/game/managers/GameRulesManager.ts:220–258) -/

/- ## Game rules: lose() and the delayed restart/game-over transition
(src/src/game/managers/GameRulesManager.ts:220-258) -/

/-- The game statuses `lose` writes (GameStatusEnum values used in
GameRulesManager.ts), plus the running status a stage starts in. -/
inductive GameStatus where
  | RUNNING
  | RESTART
  | GAME_OVER
deriving DecidableEq, Repr

/-- The slice of `IGameInitialStage` that `GameRulesManager.lose` touches. -/
structure GameStage where
  stageScore : Int
  lives : Int
  status : GameStatus
deriving DecidableEq, Repr

/-- The observable world of one `lose()` call: the game-stage record, how
many times `player.kill()` has been invoked, and whether the stage timer is
paused. -/
structure RulesWorld where
  gameStage : GameStage
  killCalls : Nat
  timerPaused : Bool
deriving DecidableEq, Repr

/-- The method `GameRulesManager.lose()` (GameRulesManager.ts:220–235): pause the game
timer, zero `stageScore`, invoke `player.kill()` once, decrement `lives`.
(The label updates and the delayed timer it schedules are presentation; the
delayed callback body is `loseDelayed`.) -/
def lose (w : RulesWorld) : RulesWorld :=
  { gameStage :=
      { stageScore := 0,
        lives := w.gameStage.lives - 1,
        status := w.gameStage.status },
    killCalls := w.killCalls + 1,
    timerPaused := true }

/-- The delayed `_timerLose` callback of `lose()`
(GameRulesManager.ts:243–251): once the countdown ends, `RESTART` when the
already-decremented `lives` is still `≥ 0`, `GAME_OVER` otherwise. -/
def loseDelayed (gs : GameStage) : GameStage :=
  if 0 ≤ gs.lives then
    { gs with status := GameStatus.RESTART }
  else
    { gs with status := GameStatus.GAME_OVER }

/-- Modelled from the spec: the Collision Resolver's
`checkActor(actorPosition) -> Hit | Clear` (spec.md §4.4) — the resolver
implementation is not among the staged sources. -/
inductive HitOutcome where
  | Hit
  | Clear
deriving DecidableEq, Repr

/-- Modelled from the spec: `checkActor` returns `Hit` exactly when a live
explosion cell occupies the actor's tile, and only reports — "On `Hit`, the
resolver does not itself kill the actor" (spec.md §4.4) — so the world is
returned untouched. -/
def checkActor (liveCells : List (Int × Int)) (pos : Int × Int)
    (w : RulesWorld) : HitOutcome × RulesWorld :=
  (if pos ∈ liveCells then HitOutcome.Hit else HitOutcome.Clear, w)

/- ## Player movement resolution — the three staged variants of
`Player.addControlsListener` -/

/- ## Player movement resolution: the three staged variants of
Player.addControlsListener -/

/-- The direction inputs `addControlsListener` polls (keyboard cursor keys
merged with touch controls). -/
structure Keys where
  right : Bool
  left : Bool
  up : Bool
  down : Bool
deriving DecidableEq, Repr

/-- Variant of `Player.addControlsListener` from src/unnamed/part_000:245–288:
`setVelocity(0)` then an `else if` chain that sets a single axis. Returns
the `(x, y)` velocity applied to the body. -/
def controlsVelocityV1 (speed : ℚ) (k : Keys) : ℚ × ℚ :=
  if k.right then (speed, 0)
  else if k.left then (-speed, 0)
  else if k.up then (0, -speed)
  else if k.down then (0, speed)
  else (0, 0)

/-- Variant of `Player.addControlsListener` from
src/src/game/managers/controls-manager/PlayerControlsManager.ts:417–478
(the Player class appended to that file): local `velocityX`/`velocityY`
start at 0 and an `else if` chain assigns both components. -/
def controlsVelocityV2 (speed : ℚ) (k : Keys) : ℚ × ℚ :=
  if k.right then (speed, 0)
  else if k.left then (-speed, 0)
  else if k.up then (0, -speed)
  else if k.down then (0, speed)
  else (0, 0)

/-- Variant of `Player.addControlsListener` from src/unnamed/part_001:214–364:
counts pressed directions, handles the single-direction case directly and
resolves multi-direction input from the current body velocity (perpendicular
turn priority, then axis with more input). `curVX`/`curVY` are the body's
current velocity components. -/
def controlsVelocityV3 (speed : ℚ) (k : Keys) (curVX curVY : ℚ) : ℚ × ℚ :=
  let horizontalPressed : Nat := (if k.left then 1 else 0) + (if k.right then 1 else 0)
  let verticalPressed : Nat := (if k.up then 1 else 0) + (if k.down then 1 else 0)
  let totalPressed := horizontalPressed + verticalPressed
  if totalPressed = 1 then
    if k.right then (speed, 0)
    else if k.left then (-speed, 0)
    else if k.up then (0, -speed)
    else if k.down then (0, speed)
    else (0, 0)
  else if 1 < totalPressed then
    let wasMovingHorizontal := |curVY| < |curVX|
    let wasMovingVertical := |curVX| < |curVY|
    let isCurrentlyMoving := 1/10 < |curVX| ∨ 1/10 < |curVY|
    if isCurrentlyMoving then
      if wasMovingHorizontal ∧ 0 < verticalPressed then
        if k.up then (0, -speed)
        else if k.down then (0, speed)
        else (0, 0)
      else if wasMovingVertical ∧ 0 < horizontalPressed then
        if k.right then (speed, 0)
        else if k.left then (-speed, 0)
        else (0, 0)
      else
        if horizontalPressed ≤ verticalPressed then
          if k.up then (0, -speed)
          else if k.down then (0, speed)
          else (0, 0)
        else
          if k.right then (speed, 0)
          else if k.left then (-speed, 0)
          else (0, 0)
    else
      if horizontalPressed ≤ verticalPressed then
        if k.up then (0, -speed)
        else if k.down then (0, speed)
        else (0, 0)
      else
        if k.right then (speed, 0)
        else if k.left then (-speed, 0)
        else (0, 0)
  else (0, 0)

/- ## Concrete scenario data (spec.md §8: two bombs in open space, the
second within the first's blast range) -/

/-- An unbounded all-`Empty` grid region. -/
def kindAllEmpty : TileGrid := fun _ => CellKind.Empty

/-- A bomb mid-detonation at the origin with blast range 2. -/
def bombA : Bomb :=
  { id := 0, origin := (0, 0), ownerId := 0, blastRange := 2,
    fuse := some 0, state := BombState.Detonating }

/-- An armed remote-fuse bomb two tiles to the right of `bombA`, inside its
blast range. -/
def bombB : Bomb :=
  { id := 1, origin := (2, 0), ownerId := 0, blastRange := 2,
    fuse := none, state := BombState.Armed }

/-- The registry contents of the scenario, in insertion order. -/
def bombsPair : List Bomb := [bombA, bombB]

/-- The bomb `bombB` as it stands after the cascade: `Spent`. -/
def bombBSpent : Bomb :=
  { id := 1, origin := (2, 0), ownerId := 0, blastRange := 2,
    fuse := none, state := BombState.Spent }

/-- A one-bomb registry whose owner 0 already has an armed bomb. -/
def regOne : Registry := { bombs := [bombB], nextId := 2 }

/- ## Walk lemmas -/

theorem Dir.stepN_step (d : Dir) (p : Int × Int) (n : Nat) :
    d.stepN (d.step p) n = d.stepN p (n + 1) := by
  induction n with
  | zero => rfl
  | succ n ih => simp [Dir.stepN, ih]

/-- The walk in one direction is a contiguous prefix of the ray from the
origin: some `k ≤ r` cells at distances `1..k`, none of them an
`IndestructibleWall`, a `DestructibleWall` only in last position, and an
early stop (`k < r`) is always caused by an `IndestructibleWall` just
beyond, or by a `DestructibleWall` or an armed bomb at the last emitted
cell. -/
theorem walkFrom_shape (kindAt : TileGrid) (armedAt : Int × Int → Option Nat)
    (d : Dir) (origin : Int × Int) (r : Nat) :
    ∃ k ≤ r,
      (walkFrom kindAt armedAt d origin r).1 =
        (List.range k).map (fun i => d.stepN origin (i + 1)) ∧
      (∀ i < k, kindAt (d.stepN origin (i + 1)) ≠ CellKind.IndestructibleWall) ∧
      (∀ i, i + 1 < k → kindAt (d.stepN origin (i + 1)) ≠ CellKind.DestructibleWall) ∧
      (k < r →
        kindAt (d.stepN origin (k + 1)) = CellKind.IndestructibleWall ∨
        (0 < k ∧ (kindAt (d.stepN origin k) = CellKind.DestructibleWall ∨
          (armedAt (d.stepN origin k)).isSome))) := by
  induction r generalizing origin with
  | zero =>
    exact ⟨0, le_rfl, by simp [walkFrom], by simp, by simp, by simp⟩
  | succ r ih =>
    by_cases hI : kindAt (d.step origin) = CellKind.IndestructibleWall
    · refine ⟨0, Nat.zero_le _, ?_, by simp, by simp, fun _ => ?_⟩
      · simp [walkFrom, hI]
      · left
        simpa [Dir.stepN] using hI
    · by_cases hD : kindAt (d.step origin) = CellKind.DestructibleWall
      · refine ⟨1, Nat.one_le_iff_ne_zero.mpr (Nat.succ_ne_zero r), ?_, ?_, ?_, fun _ => ?_⟩
        · simp [walkFrom, hI, hD, List.range_succ, Dir.stepN]
        · intro i hi
          interval_cases i
          simpa [Dir.stepN] using hD ▸ (by simp : CellKind.DestructibleWall ≠ CellKind.IndestructibleWall)
        · intro i hi
          omega
        · right
          exact ⟨Nat.one_pos, Or.inl (by simpa [Dir.stepN] using hD)⟩
      · cases hA : armedAt (d.step origin) with
        | some bid =>
          refine ⟨1, Nat.one_le_iff_ne_zero.mpr (Nat.succ_ne_zero r), ?_, ?_, ?_, fun _ => ?_⟩
          · simp [walkFrom, hI, hD, hA, List.range_succ, Dir.stepN]
          · intro i hi
            interval_cases i
            simpa [Dir.stepN] using hI
          · intro i hi
            omega
          · right
            refine ⟨Nat.one_pos, Or.inr ?_⟩
            simp [Dir.stepN, hA]
        | none =>
          obtain ⟨k, hk, hcells, hind, hdes, hstop⟩ := ih (d.step origin)
          refine ⟨k + 1, Nat.succ_le_succ hk, ?_, ?_, ?_, ?_⟩
          · simp only [walkFrom, hI, hD, hA, if_neg, if_pos]
            rw [List.range_succ_eq_map, List.map_cons, List.map_map]
            simp only [hI, hD, hA, if_false]
            refine congrArg₂ List.cons (by simp [Dir.stepN]) ?_
            rw [hcells]
            refine List.map_congr_left fun i _ => ?_
            simp [Function.comp, Dir.stepN_step]
          · intro i hi
            cases i with
            | zero => simpa [Dir.stepN] using hI
            | succ j =>
              have := hind j (by omega)
              rwa [Dir.stepN_step] at this
          · intro i hi
            cases i with
            | zero => simpa [Dir.stepN] using hD
            | succ j =>
              have := hdes j (by omega)
              rwa [Dir.stepN_step] at this
          · intro hlt
            rcases hstop (by omega) with h | ⟨hk0, h⟩
            · left
              rwa [Dir.stepN_step] at h
            · right
              refine ⟨Nat.succ_pos k, ?_⟩
              rwa [Dir.stepN_step] at h

/- ## Cascade lemmas -/

theorem chainMark_onChain (c : Nat) (cs : List Nat) (b : Bomb) :
    chainMark cs (if b.id = c ∧ b.state = BombState.Armed then
        { b with state := BombState.Detonating } else b) =
      chainMark (c :: cs) b := by
  by_cases ha : b.state = BombState.Armed
  · by_cases hc : b.id = c
    · simp [chainMark, ha, hc]
    · by_cases hm : b.id ∈ cs <;> simp [chainMark, ha, hc, hm]
  · simp [chainMark, ha]

theorem foldl_onChain (chains : List Nat) (bombs : List Bomb) :
    chains.foldl onChainDetonation bombs = bombs.map (chainMark chains) := by
  induction chains generalizing bombs with
  | nil =>
    rw [List.foldl_nil]
    symm
    calc bombs.map (chainMark [])
        = bombs.map id := List.map_congr_left fun b _ => by simp [chainMark]
      _ = bombs := List.map_id bombs
  | cons c cs ih =>
    rw [List.foldl_cons, ih, onChainDetonation, List.map_map]
    exact List.map_congr_left fun b _ => chainMark_onChain c cs b

theorem processOne_eq_map (kindAt : TileGrid) (bombs : List Bomb) (A : Bomb)
    (hA : findDetonating bombs = some A) :
    processOne kindAt bombs =
      bombs.map fun b => spentMark A.id (chainMark (explode kindAt bombs A).2 b) := by
  simp only [processOne, hA]
  rw [foldl_onChain, markSpent, List.map_map]
  exact List.map_congr_left fun b _ => rfl

theorem chainMark_id (chains : List Nat) (b : Bomb) :
    (chainMark chains b).id = b.id := by
  unfold chainMark
  split <;> rfl

theorem spentMark_id (bid : Nat) (b : Bomb) : (spentMark bid b).id = b.id := by
  unfold spentMark
  split <;> rfl

theorem chainMark_rank (chains : List Nat) (b : Bomb) :
    stateRank b.state ≤ stateRank (chainMark chains b).state := by
  unfold chainMark
  split
  · next h => simp [h.1, stateRank]
  · exact le_rfl

theorem spentMark_rank (bid : Nat) (b : Bomb) :
    stateRank b.state ≤ stateRank (spentMark bid b).state := by
  unfold spentMark
  split
  · cases b.state <;> simp [stateRank]
  · exact le_rfl

theorem processOne_origin (kindAt : TileGrid) (bombs : List Bomb) (C : Bomb)
    (hC : C ∈ processOne kindAt bombs) :
    ∃ b ∈ bombs, b.id = C.id ∧ stateRank b.state ≤ stateRank C.state := by
  cases hfind : findDetonating bombs with
  | none =>
    rw [processOne, hfind] at hC
    exact ⟨C, hC, rfl, le_rfl⟩
  | some A =>
    rw [processOne_eq_map kindAt bombs A hfind] at hC
    obtain ⟨b, hb, hbC⟩ := List.mem_map.mp hC
    refine ⟨b, hb, ?_, ?_⟩
    · rw [← hbC, spentMark_id, chainMark_id]
    · rw [← hbC]
      exact le_trans (chainMark_rank _ b) (spentMark_rank _ _)

theorem resolveCascade_origin (kindAt : TileGrid) (fuel : Nat) (bombs : List Bomb)
    (C : Bomb) (hC : C ∈ resolveCascade kindAt fuel bombs) :
    ∃ b ∈ bombs, b.id = C.id ∧ stateRank b.state ≤ stateRank C.state := by
  induction fuel generalizing bombs with
  | zero =>
    exact ⟨C, hC, rfl, le_rfl⟩
  | succ n ih =>
    rw [resolveCascade] at hC
    by_cases hdet : hasDetonating bombs
    · rw [if_pos hdet] at hC
      obtain ⟨b', hb', hid', hrank'⟩ := ih (processOne kindAt bombs) hC
      obtain ⟨b, hb, hid, hrank⟩ := processOne_origin kindAt bombs b' hb'
      exact ⟨b, hb, hid.trans hid', hrank.trans hrank'⟩
    · rw [if_neg hdet] at hC
      exact ⟨C, hC, rfl, le_rfl⟩

theorem countP_lt_of_witness {α : Type} (p q : α → Bool) (l : List α)
    (hpq : ∀ x ∈ l, p x = true → q x = true) (a : α) (ha : a ∈ l)
    (hqa : q a = true) (hpa : p a = false) : l.countP p < l.countP q := by
  induction l with
  | nil => cases ha
  | cons x xs ih =>
    rw [List.countP_cons, List.countP_cons]
    rcases List.mem_cons.mp ha with rfl | hmem
    · have hle : xs.countP p ≤ xs.countP q :=
        List.countP_mono_left fun y hy => hpq y (List.mem_cons_of_mem _ hy)
      rw [hpa, hqa]
      show xs.countP p + 0 < xs.countP q + 1
      omega
    · have hx : (if p x = true then 1 else 0) ≤ (if q x = true then 1 else 0) := by
        by_cases hpx : p x = true
        · rw [if_pos hpx, if_pos (hpq x (List.mem_cons_self x xs) hpx)]
        · rw [if_neg hpx]
          omega
      have := ih (fun y hy => hpq y (List.mem_cons_of_mem _ hy)) hmem
      omega

theorem spent_of_spent (aid : Nat) (chains : List Nat) (b : Bomb)
    (h : b.state = BombState.Spent) :
    (spentMark aid (chainMark chains b)).state = BombState.Spent := by
  have h1 : chainMark chains b = b := by
    rw [chainMark, if_neg]
    simp [h]
  rw [h1, spentMark]
  split
  · rfl
  · exact h

theorem countNonSpent_processOne_lt (kindAt : TileGrid) (bombs : List Bomb)
    (hdet : hasDetonating bombs = true) :
    countNonSpent (processOne kindAt bombs) < countNonSpent bombs := by
  obtain ⟨A, hfind⟩ : ∃ A, findDetonating bombs = some A := by
    rw [hasDetonating, List.any_eq_true] at hdet
    obtain ⟨b, hb, hpb⟩ := hdet
    exact Option.isSome_iff_exists.mp (List.find?_isSome.mpr ⟨b, hb, hpb⟩)
  have hAmem : A ∈ bombs := List.mem_of_find?_eq_some hfind
  have hAdet : A.state = BombState.Detonating := by
    have := List.find?_some hfind
    simpa using this
  rw [processOne_eq_map kindAt bombs A hfind, countNonSpent, countNonSpent,
    List.countP_map]
  refine countP_lt_of_witness _ _ bombs ?_ A hAmem ?_ ?_
  · intro x _ hx
    simp only [Function.comp, decide_eq_true_eq] at hx ⊢
    intro hspent
    exact hx (spent_of_spent _ _ x hspent)
  · simp [hAdet]
  · simp [Function.comp, spentMark, chainMark, hAdet]

theorem hasDetonating_resolveCascade (kindAt : TileGrid) (fuel : Nat)
    (bombs : List Bomb) (hfuel : countNonSpent bombs ≤ fuel) :
    hasDetonating (resolveCascade kindAt fuel bombs) = false := by
  induction fuel generalizing bombs with
  | zero =>
    by_cases hdet : hasDetonating bombs
    · exfalso
      rw [hasDetonating, List.any_eq_true] at hdet
      obtain ⟨b, hb, hpb⟩ := hdet
      have : 0 < countNonSpent bombs := by
        rw [countNonSpent, List.countP_pos_iff]
        refine ⟨b, hb, ?_⟩
        simp only [decide_eq_true_eq] at hpb ⊢
        simp [hpb]
      omega
    · simpa [resolveCascade] using Bool.of_not_eq_true hdet
  | succ n ih =>
    rw [resolveCascade]
    by_cases hdet : hasDetonating bombs
    · rw [if_pos hdet]
      refine ih (processOne kindAt bombs) ?_
      have := countNonSpent_processOne_lt kindAt bombs hdet
      omega
    · rw [if_neg hdet]
      exact Bool.of_not_eq_true hdet

theorem resolveCascade_of_quiet (kindAt : TileGrid) (fuel : Nat)
    (bombs : List Bomb) (h : hasDetonating bombs = false) :
    resolveCascade kindAt fuel bombs = bombs := by
  cases fuel with
  | zero => rfl
  | succ n => simp [resolveCascade, h]

/-- After the processing step of a detonating bomb, no bomb carrying a
chained id is still `Armed`: the chain request either found it armed and
forced it to `Detonating`, or it was already past `Armed`. -/
theorem processOne_clears_chained (kindAt : TileGrid) (bombs : List Bomb)
    (A : Bomb) (hfind : findDetonating bombs = some A) (bid : Nat)
    (hchain : bid ∈ (explode kindAt bombs A).2) :
    ∀ x ∈ processOne kindAt bombs, x.id = bid → x.state ≠ BombState.Armed := by
  intro x hx hid
  rw [processOne_eq_map kindAt bombs A hfind] at hx
  obtain ⟨y, hy, rfl⟩ := List.mem_map.mp hx
  have hyid : y.id = bid := by
    rw [← hid, spentMark_id, chainMark_id]
  by_cases harm : y.state = BombState.Armed
  · have hmark : chainMark (explode kindAt bombs A).2 y =
        { y with state := BombState.Detonating } := by
      rw [chainMark, if_pos ⟨harm, hyid ▸ hchain⟩]
    rw [hmark, spentMark]
    split
    · simp
    · simp
  · have hmark : chainMark (explode kindAt bombs A).2 y = y := by
      rw [chainMark, if_neg]
      intro hcon
      exact harm hcon.1
    rw [hmark, spentMark]
    split
    · simp
    · exact harm

/- ## Placement and destruction lemmas -/

theorem destroy_no_op (g : TileGrid) (c : Int × Int)
    (h : g c ≠ CellKind.DestructibleWall) : destroy g c = (g, []) := by
  rw [destroy, if_neg h]

/-- The single-step slot invariant behind C3: one placement request keeps
every owner's armed-bomb count within that owner's maximum. -/
theorem placeStep_armed_le (kindAt : TileGrid) (ownerMax : Nat → Nat)
    (reg : Registry) (req : PlaceReq)
    (h : ∀ o, ownerArmedCount reg.bombs o ≤ ownerMax o) :
    ∀ o, ownerArmedCount (placeStep kindAt ownerMax reg req).bombs o ≤ ownerMax o := by
  intro o
  rw [placeStep, placeBomb]
  by_cases h1 : ownerMax req.owner ≤ ownerActiveCount reg.bombs req.owner
  · rw [if_pos h1]
    exact h o
  · rw [if_neg h1]
    by_cases h2 : kindAt req.cell = CellKind.IndestructibleWall ∨
        kindAt req.cell = CellKind.DestructibleWall
    · rw [if_pos h2]
      exact h o
    · rw [if_neg h2]
      by_cases h3 : cellHasBomb reg.bombs req.cell
      · rw [if_pos h3]
        exact h o
      · rw [if_neg h3]
        rw [ownerArmedCount, List.countP_append]
        by_cases ho : req.owner = o
        · have harm_le_active :
              ownerArmedCount reg.bombs req.owner ≤
                ownerActiveCount reg.bombs req.owner := by
            rw [ownerArmedCount, ownerActiveCount]
            refine List.countP_mono_left fun b _ hb => ?_
            simp only [decide_eq_true_eq] at hb ⊢
            exact ⟨hb.1, by simp [hb.2]⟩
          have : ownerArmedCount reg.bombs o < ownerMax o := by
            rw [← ho]
            omega
          have hone : List.countP
              (fun b : Bomb => decide (b.ownerId = o ∧ b.state = BombState.Armed))
              [{ id := reg.nextId, origin := req.cell, ownerId := req.owner,
                 blastRange := req.blastRange, fuse := req.fuse,
                 state := BombState.Armed }] ≤ 1 :=
            List.countP_le_length _
          rw [ownerArmedCount] at this
          omega
        · have hzero : List.countP
              (fun b : Bomb => decide (b.ownerId = o ∧ b.state = BombState.Armed))
              [{ id := reg.nextId, origin := req.cell, ownerId := req.owner,
                 blastRange := req.blastRange, fuse := req.fuse,
                 state := BombState.Armed }] = 0 := by
            simp [ho]
          simp only [ownerArmedCount] at h
          rw [hzero]
          have := h o
          omega

/- ## Claim theorems -/

/-- C1: a detonation emits the centre cell plus one independent walk per
cardinal direction, and each directional walk is a contiguous ray prefix of
at most `blastRange` cells (so at most `blastRange + 1` counting the
centre): no emitted cell is an `IndestructibleWall`, a `DestructibleWall`
can only be the last emitted cell, and any early stop is forced by an
`IndestructibleWall` just beyond the walk (no cell emitted for it) or by a
`DestructibleWall` or armed bomb at the last emitted cell. -/
theorem claim1_walk_contiguous_bounded :
    ∀ (kindAt : TileGrid) (bombs : List Bomb) (b : Bomb),
      (explode kindAt bombs b).1 =
        b.origin :: ([Dir.up, Dir.down, Dir.left, Dir.right].map fun d =>
          (walkFrom kindAt (armedBombAt bombs) d b.origin b.blastRange).1).flatten ∧
      ∀ (armedAt : Int × Int → Option Nat) (d : Dir) (r : Nat),
        ∃ k ≤ r,
          (walkFrom kindAt armedAt d b.origin r).1.length = k ∧
          (walkFrom kindAt armedAt d b.origin r).1 =
            (List.range k).map (fun i => d.stepN b.origin (i + 1)) ∧
          (∀ i < k, kindAt (d.stepN b.origin (i + 1)) ≠ CellKind.IndestructibleWall) ∧
          (∀ i, i + 1 < k →
            kindAt (d.stepN b.origin (i + 1)) ≠ CellKind.DestructibleWall) ∧
          (k < r →
            kindAt (d.stepN b.origin (k + 1)) = CellKind.IndestructibleWall ∨
            (0 < k ∧ (kindAt (d.stepN b.origin k) = CellKind.DestructibleWall ∨
              (armedAt (d.stepN b.origin k)).isSome))) := by
  intro kindAt bombs b
  constructor
  · rfl
  · intro armedAt d r
    obtain ⟨k, hk, hcells, hind, hdes, hstop⟩ :=
      walkFrom_shape kindAt armedAt d b.origin r
    exact ⟨k, hk, by simp [hcells], hcells, hind, hdes, hstop⟩

/-- C2: a chain-detonation request leaves a bomb already `Detonating` or
`Spent` unchanged (no double detonation), and when the tick processes
detonating bomb `A` whose explosion walk reaches the cell of armed bomb `B`
(emitting a chain request with `B`'s id), every bomb carrying `B`'s id is
`Spent` once the same tick's cascade resolution finishes. -/
theorem claim2_chain_same_tick :
    (∀ (bombs : List Bomb) (bid : Nat),
      List.Forall₂ (fun a a' => a.id = a'.id ∧
        ((a.state = BombState.Detonating ∨ a.state = BombState.Spent) → a' = a))
        bombs (onChainDetonation bombs bid)) ∧
    ∀ (kindAt : TileGrid) (bombs : List Bomb) (A B : Bomb),
      findDetonating bombs = some A →
      B ∈ bombs → B.state = BombState.Armed →
      B.id ∈ (explode kindAt bombs A).2 →
      ∀ C ∈ resolveCascade kindAt bombs.length bombs, C.id = B.id →
        C.state = BombState.Spent := by
  constructor
  · intro bombs bid
    rw [onChainDetonation, List.forall₂_map_right_iff, List.forall₂_same]
    intro x _
    by_cases hc : x.id = bid ∧ x.state = BombState.Armed
    · rw [if_pos hc]
      refine ⟨rfl, ?_⟩
      intro hds
      rcases hds with hds | hds <;> rw [hc.2] at hds <;> cases hds
    · rw [if_neg hc]
      exact ⟨rfl, fun _ => rfl⟩
  · intro kindAt bombs A B hfind hBmem hBarm hBchain C hC hCid
    have hlen : 0 < bombs.length :=
      List.length_pos.mpr (List.ne_nil_of_mem hBmem)
    obtain ⟨n, hn⟩ : ∃ n, bombs.length = n + 1 := ⟨bombs.length - 1, by omega⟩
    have hdet : hasDetonating bombs = true := by
      rw [hasDetonating, List.any_eq_true]
      exact ⟨A, List.mem_of_find?_eq_some hfind,
        by simpa using List.find?_some hfind⟩
    rw [hn, resolveCascade, if_pos hdet] at hC
    obtain ⟨x, hx, hxid, hxrank⟩ :=
      resolveCascade_origin kindAt n (processOne kindAt bombs) C hC
    have hxnotarmed :=
      processOne_clears_chained kindAt bombs A hfind B.id hBchain x hx
        (hxid.trans hCid)
    have hquiet :
        hasDetonating (resolveCascade kindAt n (processOne kindAt bombs)) = false := by
      refine hasDetonating_resolveCascade kindAt n (processOne kindAt bombs) ?_
      have hlt := countNonSpent_processOne_lt kindAt bombs hdet
      have hle : countNonSpent bombs ≤ bombs.length := List.countP_le_length _
      omega
    have hCnotdet : C.state ≠ BombState.Detonating := by
      intro hCd
      rw [hasDetonating, List.any_eq_false] at hquiet
      have := hquiet C hC
      simp [hCd] at this
    cases hxs : x.state with
    | Armed => exact absurd hxs hxnotarmed
    | Detonating =>
      rw [hxs] at hxrank
      cases hCs : C.state with
      | Armed =>
        rw [hCs] at hxrank
        simp [stateRank] at hxrank
      | Detonating => exact absurd hCs hCnotdet
      | Spent => rfl
    | Spent =>
      rw [hxs] at hxrank
      cases hCs : C.state with
      | Armed =>
        rw [hCs] at hxrank
        simp [stateRank] at hxrank
      | Detonating => exact absurd hCs hCnotdet
      | Spent => rfl

/-- C3: `placeBomb` rejects when the owner's concurrent-bomb count is at the
owner's maximum or the target cell holds a wall or another bomb, a success
appends exactly one `Armed` bomb, and along any sequence of placements every
owner's simultaneously armed bombs stay within that owner's configured
maximum. -/
theorem claim3_place_limit :
    ∀ (kindAt : TileGrid) (ownerMax : Nat → Nat) (reg : Registry)
      (c : Int × Int) (owner blastRange : Nat) (fuse : Option Nat)
      (reqs : List PlaceReq),
      (ownerMax owner ≤ ownerActiveCount reg.bombs owner →
        placeBomb kindAt ownerMax reg c owner blastRange fuse =
          (PlaceResult.Rejected, reg)) ∧
      ((kindAt c = CellKind.IndestructibleWall ∨
          kindAt c = CellKind.DestructibleWall ∨
          cellHasBomb reg.bombs c = true) →
        placeBomb kindAt ownerMax reg c owner blastRange fuse =
          (PlaceResult.Rejected, reg)) ∧
      ((placeBomb kindAt ownerMax reg c owner blastRange fuse).1 ≠
          PlaceResult.Rejected →
        (placeBomb kindAt ownerMax reg c owner blastRange fuse).2.bombs =
          reg.bombs ++
            [{ id := reg.nextId, origin := c, ownerId := owner,
               blastRange := blastRange, fuse := fuse,
               state := BombState.Armed }]) ∧
      ((∀ o, ownerArmedCount reg.bombs o ≤ ownerMax o) →
        ∀ o, ownerArmedCount
            (reqs.foldl (placeStep kindAt ownerMax) reg).bombs o ≤ ownerMax o) := by
  intro kindAt ownerMax reg c owner blastRange fuse reqs
  refine ⟨?_, ?_, ?_, ?_⟩
  · intro h
    rw [placeBomb, if_pos h]
  · intro h
    rw [placeBomb]
    by_cases h1 : ownerMax owner ≤ ownerActiveCount reg.bombs owner
    · rw [if_pos h1]
    · rw [if_neg h1]
      rcases h with h | h | h
      · rw [if_pos (Or.inl h)]
      · rw [if_pos (Or.inr h)]
      · by_cases h2 : kindAt c = CellKind.IndestructibleWall ∨
            kindAt c = CellKind.DestructibleWall
        · rw [if_pos h2]
        · rw [if_neg h2, if_pos h]
  · intro h
    rw [placeBomb]
    by_cases h1 : ownerMax owner ≤ ownerActiveCount reg.bombs owner
    · exfalso
      apply h
      rw [placeBomb, if_pos h1]
    · by_cases h2 : kindAt c = CellKind.IndestructibleWall ∨
          kindAt c = CellKind.DestructibleWall
      · exfalso
        apply h
        rw [placeBomb, if_neg h1, if_pos h2]
      · by_cases h3 : cellHasBomb reg.bombs c
        · exfalso
          apply h
          rw [placeBomb, if_neg h1, if_neg h2, if_pos h3]
        · rw [if_neg h1, if_neg h2, if_neg h3]
  · intro h0
    induction reqs generalizing reg with
    | nil => exact h0
    | cons req rest ih =>
      rw [List.foldl_cons]
      exact ih (placeStep kindAt ownerMax reg req)
        (placeStep_armed_le kindAt ownerMax reg req h0)

/-- C4: `detonateNext(ownerId)` returns `none` and leaves the registry
unchanged when the owner has no armed bomb; otherwise it picks the oldest
(first in insertion order) still-armed bomb of that owner and forces exactly
that bomb into `Detonating`. -/
theorem claim4_detonateNext_fifo :
    ∀ (owner : Nat) (bombs pre post : List Bomb) (B : Bomb),
      ((∀ b ∈ bombs, ¬(b.ownerId = owner ∧ b.state = BombState.Armed)) →
        detonateNext owner bombs = (none, bombs)) ∧
      (bombs = pre ++ B :: post →
        (∀ b ∈ pre, ¬(b.ownerId = owner ∧ b.state = BombState.Armed)) →
        B.ownerId = owner → B.state = BombState.Armed →
        detonateNext owner bombs =
          (some B.id, pre ++ { B with state := BombState.Detonating } :: post)) := by
  intro owner bombs pre post B
  constructor
  · intro h
    induction bombs with
    | nil => rfl
    | cons b bs ih =>
      rw [detonateNext, if_neg (h b (List.mem_cons_self b bs))]
      have := ih fun x hx => h x (List.mem_cons_of_mem b hx)
      simp [this]
  · intro hsplit hpre hown harm
    subst hsplit
    induction pre with
    | nil =>
      rw [List.nil_append, detonateNext, if_pos ⟨hown, harm⟩, List.nil_append]
    | cons p ps ih =>
      rw [List.cons_append, detonateNext,
        if_neg (hpre p (List.mem_cons_self p ps)), List.cons_append]
      have := ih fun x hx => hpre x (List.mem_cons_of_mem p hx)
      simp [this]

/-- C5: the chain-detonation cascade started by any detonation terminates
within as many processing steps as there are bombs: after that many steps no
bomb is still `Detonating`, further processing is the identity, and every
surviving bomb record descends from a starting bomb whose state only moved
forward along `Armed → Detonating → Spent` (each bomb detonates at most
once; `Spent` is terminal). -/
theorem claim5_cascade_terminates :
    ∀ (kindAt : TileGrid) (bombs : List Bomb),
      hasDetonating (resolveCascade kindAt bombs.length bombs) = false ∧
      (∀ extra, resolveCascade kindAt extra (resolveCascade kindAt bombs.length bombs) =
        resolveCascade kindAt bombs.length bombs) ∧
      ∀ C ∈ resolveCascade kindAt bombs.length bombs,
        ∃ b ∈ bombs, b.id = C.id ∧ stateRank b.state ≤ stateRank C.state := by
  intro kindAt bombs
  have hquiet : hasDetonating (resolveCascade kindAt bombs.length bombs) = false :=
    hasDetonating_resolveCascade kindAt bombs.length bombs (List.countP_le_length _)
  refine ⟨hquiet, ?_, ?_⟩
  · intro extra
    exact resolveCascade_of_quiet kindAt extra _ hquiet
  · intro C hC
    exact resolveCascade_origin kindAt bombs.length bombs C hC

/-- C6: calling Tile Grid `destroy` on a cell that is already `Empty` is a
no-op emitting no wall-destroyed notification; on a `DestructibleWall` it
turns exactly that cell `Empty` and emits exactly one notification; a
second `destroy` of the same cell is always a no-op, so `destroy` is
idempotent. -/
theorem claim6_destroy_idempotent :
    ∀ (g : TileGrid) (c : Int × Int),
      (g c = CellKind.Empty → destroy g c = (g, [])) ∧
      (g c = CellKind.DestructibleWall →
        (destroy g c).1 c = CellKind.Empty ∧ (destroy g c).2 = [c] ∧
        ∀ p, p ≠ c → (destroy g c).1 p = g p) ∧
      destroy (destroy g c).1 c = ((destroy g c).1, []) := by
  intro g c
  refine ⟨?_, ?_, ?_⟩
  · intro h
    rw [destroy, if_neg]
    simp [h]
  · intro h
    rw [destroy, if_pos h]
    exact ⟨by simp, rfl, fun p hp => by simp [hp]⟩
  · by_cases h : g c = CellKind.DestructibleWall
    · refine destroy_no_op _ _ ?_
      rw [destroy, if_pos h]
      simp
    · refine destroy_no_op _ _ ?_
      rw [destroy, if_neg h]
      exact h

/-- C7: `Player.validateTileOverlap` answers `true` exactly when the rounded
player body centre and the floored tile body centre differ by at most 10 on
each axis, and `false` whenever either physics body is absent. -/
theorem claim7_tile_overlap_tolerance :
    ∀ (pb tb : ArcadeBody) (ob : Option ArcadeBody),
      (validateTileOverlap (some pb) (some tb) = true ↔
        |round pb.centerX - ⌊tb.centerX⌋| ≤ 10 ∧
        |round pb.centerY - ⌊tb.centerY⌋| ≤ 10) ∧
      validateTileOverlap none ob = false ∧
      validateTileOverlap ob none = false := by
  intro pb tb ob
  refine ⟨?_, ?_, ?_⟩
  · simp [validateTileOverlap]
  · cases ob <;> rfl
  · cases ob <;> rfl

/-- C8: the collision check only reports `Hit`/`Clear` and leaves the world
untouched; the Game Rules layer's `lose()` charges one `Hit` to the player
as exactly one life, one `player.kill()` invocation, and a stage score reset
to zero. -/
theorem claim8_hit_lose_one_life :
    ∀ (cells : List (Int × Int)) (pos : Int × Int) (w : RulesWorld),
      (checkActor cells pos w).2 = w ∧
      ((checkActor cells pos w).1 = HitOutcome.Hit ↔ pos ∈ cells) ∧
      (lose w).gameStage.lives = w.gameStage.lives - 1 ∧
      (lose w).killCalls = w.killCalls + 1 ∧
      (lose w).gameStage.stageScore = 0 := by
  intro cells pos w
  refine ⟨rfl, ?_, rfl, rfl, rfl⟩
  rw [checkActor]
  by_cases h : pos ∈ cells <;> simp [h]

/-- C9: in every staged variant of `Player.addControlsListener`, the
velocity finally applied to the body is axis-aligned — at most one of the
two components is nonzero — whatever combination of direction inputs is
held and whatever the current velocity is, so the player never moves
diagonally. -/
theorem claim9_axis_aligned_velocity :
    ∀ (speed curVX curVY : ℚ) (k : Keys),
      ((controlsVelocityV1 speed k).1 = 0 ∨ (controlsVelocityV1 speed k).2 = 0) ∧
      ((controlsVelocityV2 speed k).1 = 0 ∨ (controlsVelocityV2 speed k).2 = 0) ∧
      ((controlsVelocityV3 speed k curVX curVY).1 = 0 ∨
        (controlsVelocityV3 speed k curVX curVY).2 = 0) := by
  intro speed curVX curVY k
  refine ⟨?_, ?_, ?_⟩
  · rw [controlsVelocityV1]
    split_ifs <;> simp
  · rw [controlsVelocityV2]
    split_ifs <;> simp
  · rw [controlsVelocityV3]
    split_ifs <;> simp_all <;> (try split_ifs) <;> simp

/-- C10: after `lose()` has decremented the lives counter, the delayed
transition restarts the stage whenever the decremented counter is still
`≥ 0` and declares game over exactly when it is negative — so a player
reaching exactly zero lives restarts instead of game over. -/
theorem claim10_zero_lives_restart :
    ∀ (w : RulesWorld),
      ((loseDelayed (lose w).gameStage).status = GameStatus.RESTART ↔
        0 ≤ (lose w).gameStage.lives) ∧
      ((loseDelayed (lose w).gameStage).status = GameStatus.GAME_OVER ↔
        (lose w).gameStage.lives < 0) ∧
      ((lose w).gameStage.lives = 0 →
        (loseDelayed (lose w).gameStage).status = GameStatus.RESTART) ∧
      (lose w).gameStage.lives = w.gameStage.lives - 1 := by
  intro w
  refine ⟨?_, ?_, ?_, rfl⟩
  · rw [loseDelayed]
    by_cases h : (0 : Int) ≤ (lose w).gameStage.lives <;> simp [h]
  · rw [loseDelayed]
    by_cases h : (0 : Int) ≤ (lose w).gameStage.lives
    · simp only [if_pos h]
      constructor
      · intro hc
        cases hc
      · omega
    · simp only [if_neg h]
      constructor
      · intro _
        omega
      · intro _
        trivial
  · intro h0
    simp [loseDelayed, h0]

/- ## Concrete witnesses -/

/-- C2 at the concrete two-bomb scenario: the tick that processes
`bombA` chains `bombB` and leaves it `Spent` by the end of the same
cascade. -/
theorem claim2_chain_same_tick_witness :
    findDetonating bombsPair = some bombA ∧
    bombB.id ∈ (explode kindAllEmpty bombsPair bombA).2 ∧
    bombBSpent ∈ resolveCascade kindAllEmpty bombsPair.length bombsPair ∧
    bombBSpent.state = BombState.Spent :=
  ⟨by decide, by decide, by decide,
    claim2_chain_same_tick.2 kindAllEmpty bombsPair bombA bombB (by decide)
      (by decide) (by decide) (by decide) bombBSpent (by decide) (by decide)⟩

/-- C3 at a concrete registry: owner 0 is at its maximum of one armed bomb,
so the next placement is rejected and the registry is untouched. -/
theorem claim3_place_limit_witness :
    placeBomb kindAllEmpty (fun _ => 1) regOne (5, 5) 0 2 (some 180) =
      (PlaceResult.Rejected, regOne) :=
  (claim3_place_limit kindAllEmpty (fun _ => 1) regOne (5, 5) 0 2 (some 180)
    []).1 (by decide)

/-- C4 at the concrete two-bomb registry: `bombA` is mid-detonation (not
armed), so the remote trigger selects `bombB`, the oldest armed bomb of
owner 0, and forces exactly it into `Detonating`. -/
theorem claim4_detonateNext_fifo_witness :
    detonateNext 0 bombsPair =
      (some bombB.id, [bombA] ++ { bombB with state := BombState.Detonating } :: []) :=
  (claim4_detonateNext_fifo 0 bombsPair [bombA] [] bombB).2 (by decide)
    (by decide) (by decide) (by decide)

/-- C6 at a concrete grid: destroying an `Empty` cell is a no-op that emits
no wall-destroyed notification. -/
theorem claim6_destroy_idempotent_witness :
    destroy kindAllEmpty (0, 0) = (kindAllEmpty, []) :=
  (claim6_destroy_idempotent kindAllEmpty (0, 0)).1 rfl

end Bomberman
